import Mathlib

/-!
A shallow embedding of the `iced_graphics` texture atlas
(`src/graphics/src/atlas.rs` together with `atlas/layer.rs`,
`atlas/allocation.rs` and `atlas/entry.rs`), and proofs of the
behavioural properties stated for it.

The per-layer region allocator (`atlas/allocator.rs`) is not part of the
repository snapshot; it is modelled from the specification's contract for
it (§4.1): a guillotine-style packer over a fixed `SIZE × SIZE` space with
`allocate`, `deallocate` and `is_empty`.
-/

namespace Iced

/-- The size of texture atlasses (`SIZE` in `atlas.rs`). -/
def SIZE : Nat := 2048

/-- Modelled from the spec: `atlas/allocator.rs` is missing from the
repository files, so a `Region` is modelled from §3 of the spec: an
axis-aligned rectangle (position, size) carved out of a layer's
`SIZE × SIZE` space. -/
structure Region where
  x : Nat
  y : Nat
  width : Nat
  height : Nat
deriving DecidableEq

/-- The top-left corner of a region (spec §3: "(position, size)"). -/
def Region.position (r : Region) : Nat × Nat := (r.x, r.y)

/-- The size of a region. -/
def Region.size (r : Region) : Nat × Nat := (r.width, r.height)

/-- Modelled from the spec: the per-layer Region Allocator of
`atlas/allocator.rs` (missing from the repository files), following the
contract of §4.1: it maintains a structure of free rectangles over a
fixed `size × size` space, selects a free rectangle that fits with a
first-fit rule, splits the leftover space into new free rectangles
(guillotine split), and tracks how many carved regions are live so that
`is_empty` is true exactly when every previously carved region has been
deallocated. -/
structure Allocator where
  free : List Region
  allocated : Nat
deriving DecidableEq

/-- Modelled from the spec: a fresh allocator over a `size × size` space
has the whole square free and no live allocation. -/
def Allocator.new (size : Nat) : Allocator :=
  { free := [⟨0, 0, size, size⟩], allocated := 0 }

/-- Modelled from the spec: the guillotine split of the chosen free
rectangle `r` after carving a `w × h` region from its top-left corner:
the leftover to the right of the carved region and the leftover below it
become new free rectangles. -/
def splitLeftovers (r : Region) (w h : Nat) : List Region :=
  (if w < r.width then [⟨r.x + w, r.y, r.width - w, h⟩] else []) ++
    (if h < r.height then [⟨r.x, r.y + h, r.width, r.height - h⟩] else [])

/-- Modelled from the spec: first-fit search through the free list; the
first free rectangle at least `w × h` is carved at its top-left corner
and replaced by its guillotine leftovers. Returns the carved region and
the updated free list, or nothing when no free rectangle fits. -/
def allocFirstFit (w h : Nat) : List Region → Option (Region × List Region)
  | [] => none
  | r :: rs =>
    if w ≤ r.width ∧ h ≤ r.height then
      some (⟨r.x, r.y, w, h⟩, splitLeftovers r w h ++ rs)
    else
      match allocFirstFit w h rs with
      | some (reg, rs') => some (reg, r :: rs')
      | none => none

/-- Modelled from the spec: `allocate(width, height) -> Option<Region>`
(§4.1). Width/height of 0 is not a valid input (§4.1), so the model
rejects it; otherwise the first free rectangle that fits is carved and
the live-allocation count goes up by one. Failure returns nothing and
leaves the allocator observationally unchanged. -/
def Allocator.allocate (a : Allocator) (w h : Nat) :
    Option (Region × Allocator) :=
  if w = 0 ∨ h = 0 then none
  else
    match allocFirstFit w h a.free with
    | some (reg, free') => some (reg, ⟨free', a.allocated + 1⟩)
    | none => none

/-- Modelled from the spec: `deallocate(&Region)` (§4.1) returns the
region's rectangle to the free list and drops the live count by one. -/
def Allocator.deallocate (a : Allocator) (r : Region) : Allocator :=
  ⟨r :: a.free, a.allocated - 1⟩

/-- Modelled from the spec: `is_empty` is true exactly when every region
previously carved from this layer has been deallocated (§4.1). -/
def Allocator.is_empty (a : Allocator) : Bool :=
  a.allocated == 0

/-- `Layer` from `atlas/layer.rs`: Empty, Busy (owning an allocator), or
Full. -/
inductive Layer where
  | Empty : Layer
  | Busy (allocator : Allocator) : Layer
  | Full : Layer
deriving DecidableEq

/-- `Layer::is_empty` from `atlas/layer.rs`. -/
def Layer.is_empty : Layer → Bool
  | .Empty => true
  | _ => false

/-- The Empty/Busy/Full classification of a layer, used to compare layer
states while ignoring allocator internals. -/
inductive LayerClass where
  | Empty : LayerClass
  | Busy : LayerClass
  | Full : LayerClass
deriving DecidableEq

/-- Classify a layer as Empty, Busy or Full. -/
def Layer.classify : Layer → LayerClass
  | .Empty => .Empty
  | .Busy _ => .Busy
  | .Full => .Full

/-- `Allocation` from `atlas/allocation.rs`. -/
inductive Allocation where
  | Partial (layer : Nat) (region : Region) : Allocation
  | Full (layer : Nat) : Allocation
deriving DecidableEq

/-- `Allocation::position` from `atlas/allocation.rs`. -/
def Allocation.position : Allocation → Nat × Nat
  | .Partial _ region => region.position
  | .Full _ => (0, 0)

/-- `Allocation::size` from `atlas/allocation.rs`. -/
def Allocation.size : Allocation → Nat × Nat
  | .Partial _ region => region.size
  | .Full _ => (SIZE, SIZE)

/-- `Allocation::layer` from `atlas/allocation.rs`. -/
def Allocation.layer : Allocation → Nat
  | .Partial layer _ => layer
  | .Full layer => layer

/-- `Fragment` from `atlas/entry.rs`: an allocation together with the
position of the fragment inside the original image. -/
structure Fragment where
  position : Nat × Nat
  allocation : Allocation
deriving DecidableEq

/-- `Entry` from `atlas/entry.rs`. -/
inductive Entry where
  | Contiguous (allocation : Allocation) : Entry
  | Fragmented (size : Nat × Nat) (fragments : List Fragment) : Entry
deriving DecidableEq

/-- `Entry::size` from `atlas/entry.rs`. -/
def Entry.size : Entry → Nat × Nat
  | .Contiguous allocation => allocation.size
  | .Fragmented size _ => size

/-- The "allocate one layer if texture fits perfectly" branch of
`Atlas::allocate` (atlas.rs lines 137-156): walk the layers, turn the
first empty one into `Full` and report its index. -/
def setFirstEmpty : List Layer → Option (Nat × List Layer)
  | [] => none
  | l :: rest =>
    if l.is_empty then some (0, Layer.Full :: rest)
    else
      match setFirstEmpty rest with
      | some (i, rest') => some (i + 1, l :: rest')
      | none => none

/-- The exact-fit case of `Atlas::allocate` (atlas.rs lines 137-156):
reuse the first empty layer as `Full`, or append a new `Full` layer. -/
def allocateFull (L : List Layer) : Option Entry × List Layer :=
  match setFirstEmpty L with
  | some (i, L') => (some (.Contiguous (.Full i)), L')
  | none =>
    (some (.Contiguous (.Full L.length)), L ++ [Layer.Full])

/-- The "try allocating on an existing layer" scan of `Atlas::allocate`
(atlas.rs lines 191-216): for an empty layer a fresh allocator is tried
(the layer becomes busy only on success); a busy layer's allocator is
tried directly; full layers are skipped. `i` is the index of the head of
the remaining list. -/
def allocScan (w h : Nat) (i : Nat) :
    List Layer → Option (Region × Nat × List Layer)
  | [] => none
  | l :: rest =>
    match l with
    | .Empty =>
      match (Allocator.new SIZE).allocate w h with
      | some (region, allocator') =>
        some (region, i, Layer.Busy allocator' :: rest)
      | none =>
        (allocScan w h (i + 1) rest).map
          (fun p => (p.1, p.2.1, l :: p.2.2))
    | .Busy allocator =>
      match allocator.allocate w h with
      | some (region, allocator') =>
        some (region, i, Layer.Busy allocator' :: rest)
      | none =>
        (allocScan w h (i + 1) rest).map
          (fun p => (p.1, p.2.1, l :: p.2.2))
    | .Full =>
      (allocScan w h (i + 1) rest).map
        (fun p => (p.1, p.2.1, l :: p.2.2))

/-- The sub-layer case of `Atlas::allocate` (atlas.rs lines 191-231):
scan existing layers in index order, then fall back to a fresh layer;
only when even the fresh allocator fails does the whole call fail. -/
def allocateNormal (L : List Layer) (w h : Nat) : Option Entry × List Layer :=
  match allocScan w h 0 L with
  | some (region, i, L') =>
    (some (.Contiguous (.Partial i region)), L')
  | none =>
    match (Allocator.new SIZE).allocate w h with
    | some (region, allocator') =>
      (some (.Contiguous (.Partial L.length region)),
        L ++ [Layer.Busy allocator'])
    | none => (none, L)

/-- One block of the fragmented path (atlas.rs line 170): the recursive
`self.allocate(width, height)` call. Its arguments always satisfy
`width ≤ SIZE` and `height ≤ SIZE` (they are `min`-capped), so the
recursive call is embedded by `Atlas::allocate` restricted to those
inputs: the exact-fit branch when both dimensions equal `SIZE`,
otherwise the sub-layer branch. -/
def allocateBlock (L : List Layer) (w h : Nat) : Option Entry × List Layer :=
  if w = SIZE ∧ h = SIZE then allocateFull L else allocateNormal L w h

/-- The inner `while x < width` loop of the fragmented path of
`Atlas::allocate` (atlas.rs lines 167-180): allocate SIZE-capped blocks
along one row, pushing a fragment at image offset `(x, y)` for each
contiguous allocation; a failed block aborts with the layers as already
mutated (the `?` operator keeps prior mutations). -/
def allocRow (w hb y : Nat) (x : Nat) (L : List Layer)
    (acc : List Fragment) : Option (List Fragment) × List Layer :=
  if hx : x < w then
    let wb := min (w - x) SIZE
    match allocateBlock L wb hb with
    | (some e, L') =>
      let acc' :=
        match e with
        | .Contiguous allocation => acc ++ [⟨(x, y), allocation⟩]
        | _ => acc
      allocRow w hb y (x + wb) L' acc'
    | (none, L') => (none, L')
  else (some acc, L)
termination_by w - x
decreasing_by
  have h1 : 1 ≤ min (w - x) SIZE := by
    have : 1 ≤ w - x := by omega
    have : 1 ≤ SIZE := by simp [SIZE]
    omega
  omega

/-- The outer `while y < height` loop of the fragmented path of
`Atlas::allocate` (atlas.rs lines 163-183): rows of SIZE-capped height,
in increasing `y` order. -/
def allocRows (w h : Nat) (y : Nat) (L : List Layer)
    (acc : List Fragment) : Option (List Fragment) × List Layer :=
  if hy : y < h then
    let hb := min (h - y) SIZE
    match allocRow w hb y 0 L acc with
    | (some acc', L') => allocRows w h (y + hb) L' acc'
    | (none, L') => (none, L')
  else (some acc, L)
termination_by h - y
decreasing_by
  have h1 : 1 ≤ min (h - y) SIZE := by
    have : 1 ≤ h - y := by omega
    have : 1 ≤ SIZE := by simp [SIZE]
    omega
  omega

/-- `Atlas::allocate` (atlas.rs lines 136-232), with `&mut self.layers`
made explicit: the result and the updated layer list (which on failure
keeps any mutations made before the failing step). -/
def allocate (L : List Layer) (w h : Nat) : Option Entry × List Layer :=
  if w = SIZE ∧ h = SIZE then allocateFull L
  else if SIZE < w ∨ SIZE < h then
    match allocRows w h 0 L [] with
    | (some fragments, L') => (some (.Fragmented (w, h) fragments), L')
    | (none, L') => (none, L')
  else allocateNormal L w h

/-- `Atlas::deallocate` (atlas.rs lines 234-251). A full allocation's
layer becomes empty unconditionally; a partial allocation's region is
returned to its layer's allocator when the layer is busy, demoting the
layer to empty when the allocator reports no live allocation; any other
layer state is left untouched. -/
def deallocate (L : List Layer) (a : Allocation) : List Layer :=
  match a with
  | .Full layer => L.set layer Layer.Empty
  | .Partial layer region =>
    match L[layer]? with
    | some (.Busy allocator) =>
      let allocator' := allocator.deallocate region
      if allocator'.is_empty then L.set layer Layer.Empty
      else L.set layer (Layer.Busy allocator')
    | _ => L

/-- `Atlas::remove` (atlas.rs lines 123-134): deallocate a contiguous
entry's single allocation, or every fragment's allocation in turn. -/
def remove (L : List Layer) (e : Entry) : List Layer :=
  match e with
  | .Contiguous allocation => deallocate L allocation
  | .Fragmented _ fragments =>
    fragments.foldl (fun acc f => deallocate acc f.allocation) L

/-- `Atlas` from atlas.rs: a backend and the ordered layer sequence. -/
structure Atlas (β : Type) where
  backend : β
  layers : List Layer
deriving DecidableEq

/-- `Atlas::new` (atlas.rs lines 73-78). -/
def Atlas.new (backend : β) : Atlas β :=
  { backend := backend, layers := [Layer.Empty] }

/-- `Atlas::layer_count` (atlas.rs lines 87-89). -/
def Atlas.layer_count (a : Atlas β) : Nat :=
  a.layers.length

/-- `Atlas::entry_for` (atlas.rs lines 96-110): record the layer count,
run the allocation, and on success invoke the caller's `grow` callback
with the backend, the post-allocation layer sequence and the number of
newly appended layers, before handing the entry back. On failure the
`?` operator returns nothing, skipping the callback. -/
def Atlas.entry_for (a : Atlas β) (w h : Nat)
    (grow : β → List Layer → Nat → β) : Option Entry × Atlas β :=
  let current_size := a.layers.length
  match allocate a.layers w h with
  | (none, L') => (none, { a with layers := L' })
  | (some e, L') =>
    let new_layers := L'.length - current_size
    (some e, { backend := grow a.backend L' new_layers, layers := L' })

/-- `Atlas::remove` at the atlas level. -/
def Atlas.remove (a : Atlas β) (e : Entry) : Atlas β :=
  { a with layers := Iced.remove a.layers e }

/-- One row of the row-major, SIZE-capped block tiling described by the
fragmented path of `Atlas::allocate`: the image offsets and sizes of the
blocks of a row of height `hb` starting at image row `y`, with `x`
stepping by `min (w - x) SIZE`. Each element is `(offset, size)`. -/
def tilesRow (w hb y : Nat) (x : Nat) : List ((Nat × Nat) × (Nat × Nat)) :=
  if x < w then
    ((x, y), (min (w - x) SIZE, hb)) :: tilesRow w hb y (x + min (w - x) SIZE)
  else []
termination_by w - x
decreasing_by
  have h1 : 1 ≤ min (w - x) SIZE := by
    have : 1 ≤ w - x := by omega
    have : 1 ≤ SIZE := by simp [SIZE]
    omega
  omega

/-- The full row-major, SIZE-capped block tiling of a `w × h` image,
with `y` stepping by `min (h - y) SIZE`. -/
def tiles (w h : Nat) (y : Nat) : List ((Nat × Nat) × (Nat × Nat)) :=
  if y < h then
    tilesRow w (min (h - y) SIZE) y 0 ++ tiles w h (y + min (h - y) SIZE)
  else []
termination_by h - y
decreasing_by
  have h1 : 1 ≤ min (h - y) SIZE := by
    have : 1 ≤ h - y := by omega
    have : 1 ≤ SIZE := by simp [SIZE]
    omega
  omega

/-- Whether the axis-aligned rectangle at offset `pos` of size `sz`
contains the point `(px, py)`. -/
def coversPt (pos sz : Nat × Nat) (px py : Nat) : Bool :=
  decide (pos.1 ≤ px ∧ px < pos.1 + sz.1 ∧ pos.2 ≤ py ∧ py < pos.2 + sz.2)

/-! ### Unfolding equations for the loops -/

theorem size_pos : 1 ≤ SIZE := by simp [SIZE]

theorem allocRow_stop (w hb y x : Nat) (L : List Layer) (acc : List Fragment)
    (hx : ¬ x < w) : allocRow w hb y x L acc = (some acc, L) := by
  rw [allocRow]
  simp [hx]

theorem allocRow_step (w hb y x : Nat) (L : List Layer) (acc : List Fragment)
    (hx : x < w) : allocRow w hb y x L acc =
    match allocateBlock L (min (w - x) SIZE) hb with
    | (some e, L') =>
      allocRow w hb y (x + min (w - x) SIZE) L'
        (match e with
         | .Contiguous allocation => acc ++ [⟨(x, y), allocation⟩]
         | _ => acc)
    | (none, L') => (none, L') := by
  rw [allocRow]
  simp [hx]

theorem allocRows_stop (w h y : Nat) (L : List Layer) (acc : List Fragment)
    (hy : ¬ y < h) : allocRows w h y L acc = (some acc, L) := by
  rw [allocRows]
  simp [hy]

theorem allocRows_step (w h y : Nat) (L : List Layer) (acc : List Fragment)
    (hy : y < h) : allocRows w h y L acc =
    match allocRow w (min (h - y) SIZE) y 0 L acc with
    | (some acc', L') => allocRows w h (y + min (h - y) SIZE) L' acc'
    | (none, L') => (none, L') := by
  rw [allocRows]
  simp [hy]

theorem tilesRow_stop (w hb y x : Nat) (hx : ¬ x < w) :
    tilesRow w hb y x = [] := by
  rw [tilesRow]
  simp [hx]

theorem tilesRow_step (w hb y x : Nat) (hx : x < w) :
    tilesRow w hb y x =
      ((x, y), (min (w - x) SIZE, hb)) ::
        tilesRow w hb y (x + min (w - x) SIZE) := by
  rw [tilesRow]
  simp [hx]

theorem tiles_stop (w h y : Nat) (hy : ¬ y < h) : tiles w h y = [] := by
  rw [tiles]
  simp [hy]

theorem tiles_step (w h y : Nat) (hy : y < h) :
    tiles w h y =
      tilesRow w (min (h - y) SIZE) y 0 ++ tiles w h (y + min (h - y) SIZE) := by
  rw [tiles]
  simp [hy]

/-! ### Region allocator lemmas -/

theorem allocFirstFit_some (w h : Nat) :
    ∀ free r free', allocFirstFit w h free = some (r, free') →
      r.width = w ∧ r.height = h := by
  intro free
  induction free with
  | nil => intro r free' hf; simp [allocFirstFit] at hf
  | cons a rest ih =>
    intro r free' hf
    rw [allocFirstFit] at hf
    by_cases hfit : w ≤ a.width ∧ h ≤ a.height
    · rw [if_pos hfit] at hf
      obtain ⟨h1, _⟩ := Prod.mk.injEq .. ▸ (Option.some.injEq .. ▸ hf)
      exact ⟨by rw [← h1], by rw [← h1]⟩
    · rw [if_neg hfit] at hf
      rcases hrec : allocFirstFit w h rest with _ | ⟨r', rest'⟩
      · rw [hrec] at hf; exact absurd hf (by simp)
      · rw [hrec] at hf
        simp only [Option.some.injEq, Prod.mk.injEq] at hf
        obtain ⟨h1, _⟩ := hf
        obtain ⟨hw, hh⟩ := ih r' rest' hrec
        exact ⟨h1 ▸ hw, h1 ▸ hh⟩

theorem Allocator.allocate_some (a a' : Allocator) (w h : Nat) (r : Region)
    (hal : a.allocate w h = some (r, a')) :
    r.width = w ∧ r.height = h ∧ a'.allocated = a.allocated + 1 ∧
      1 ≤ w ∧ 1 ≤ h := by
  rw [Allocator.allocate] at hal
  by_cases hz : w = 0 ∨ h = 0
  · rw [if_pos hz] at hal; exact absurd hal (by simp)
  · rw [if_neg hz] at hal
    rcases hf : allocFirstFit w h a.free with _ | ⟨reg, free'⟩
    · rw [hf] at hal; exact absurd hal (by simp)
    · rw [hf] at hal
      simp only [Option.some.injEq, Prod.mk.injEq] at hal
      obtain ⟨h1, h2⟩ := hal
      obtain ⟨hw, hh⟩ := allocFirstFit_some w h a.free reg free' hf
      refine ⟨h1 ▸ hw, h1 ▸ hh, ?_, by omega, by omega⟩
      rw [← h2]

theorem Allocator.new_allocate (w h : Nat) (hw : 1 ≤ w) (hh : 1 ≤ h)
    (hws : w ≤ SIZE) (hhs : h ≤ SIZE) :
    (Allocator.new SIZE).allocate w h =
      some (⟨0, 0, w, h⟩,
        ⟨splitLeftovers ⟨0, 0, SIZE, SIZE⟩ w h, 1⟩) := by
  rw [Allocator.allocate, Allocator.new]
  rw [if_neg (by omega)]
  rw [allocFirstFit]
  rw [if_pos (by exact ⟨hws, hhs⟩)]
  simp

/-! ### The exact-fit scan -/

theorem Layer.is_empty_iff (l : Layer) : l.is_empty = true ↔ l = .Empty := by
  cases l <;> simp [Layer.is_empty]

theorem setFirstEmpty_some_spec :
    ∀ (L : List Layer) (i : Nat) (L' : List Layer),
      setFirstEmpty L = some (i, L') →
      L[i]? = some Layer.Empty ∧ L' = L.set i Layer.Full := by
  intro L
  induction L with
  | nil => intro i L' hs; simp [setFirstEmpty] at hs
  | cons l rest ih =>
    intro i L' hs
    rw [setFirstEmpty] at hs
    by_cases he : l.is_empty
    · rw [if_pos he] at hs
      simp only [Option.some.injEq, Prod.mk.injEq] at hs
      obtain ⟨h1, h2⟩ := hs
      subst h1
      rw [(Layer.is_empty_iff l).mp he]
      exact ⟨by simp, by rw [← h2]; rfl⟩
    · rw [if_neg he] at hs
      rcases hrec : setFirstEmpty rest with _ | ⟨i', rest'⟩
      · rw [hrec] at hs; exact absurd hs (by simp)
      · rw [hrec] at hs
        simp only [Option.some.injEq, Prod.mk.injEq] at hs
        obtain ⟨h1, h2⟩ := hs
        obtain ⟨hg, hset⟩ := ih i' rest' hrec
        subst h1
        refine ⟨by simpa using hg, ?_⟩
        rw [← h2, hset]
        rfl

theorem setFirstEmpty_eq_some (L : List Layer) (i : Nat)
    (hi : L[i]? = some Layer.Empty)
    (hmin : ∀ j, j < i → L[j]? ≠ some Layer.Empty) :
    setFirstEmpty L = some (i, L.set i Layer.Full) := by
  induction L generalizing i with
  | nil => simp at hi
  | cons l rest ih =>
    rw [setFirstEmpty]
    rcases i with _ | i
    · simp only [List.getElem?_cons_zero, Option.some.injEq] at hi
      rw [if_pos (by rw [hi]; rfl)]
      rw [hi]
      rfl
    · have hl : ¬ l.is_empty := by
        intro he
        exact hmin 0 (by omega) (by simp [(Layer.is_empty_iff l).mp he])
      rw [if_neg hl]
      have hmin' : ∀ j : Nat, j < i → rest[j]? ≠ some Layer.Empty := by
        intro j hj hcon
        exact hmin (j + 1) (by omega) (by simpa using hcon)
      have := ih i (by simpa using hi) hmin'
      rw [this]
      rfl

theorem setFirstEmpty_eq_none (L : List Layer)
    (h : ∀ j : Nat, L[j]? ≠ some Layer.Empty) : setFirstEmpty L = none := by
  induction L with
  | nil => rfl
  | cons l rest ih =>
    rw [setFirstEmpty]
    have hl : ¬ l.is_empty := by
      intro he
      exact h 0 (by simp [(Layer.is_empty_iff l).mp he])
    rw [if_neg hl]
    rw [ih (fun j => by have := h (j + 1); simpa using this)]

/-! ### The sub-layer scan -/

theorem allocScan_nil (w h i : Nat) : allocScan w h i [] = none := rfl

theorem allocScan_cons_Empty (w h i : Nat) (rest : List Layer) :
    allocScan w h i (Layer.Empty :: rest) =
      match (Allocator.new SIZE).allocate w h with
      | some (region, allocator') =>
        some (region, i, Layer.Busy allocator' :: rest)
      | none =>
        (allocScan w h (i + 1) rest).map
          (fun p => (p.1, p.2.1, Layer.Empty :: p.2.2)) := rfl

theorem allocScan_cons_Busy (w h i : Nat) (al : Allocator)
    (rest : List Layer) :
    allocScan w h i (Layer.Busy al :: rest) =
      match al.allocate w h with
      | some (region, allocator') =>
        some (region, i, Layer.Busy allocator' :: rest)
      | none =>
        (allocScan w h (i + 1) rest).map
          (fun p => (p.1, p.2.1, Layer.Busy al :: p.2.2)) := rfl

theorem allocScan_cons_Full (w h i : Nat) (rest : List Layer) :
    allocScan w h i (Layer.Full :: rest) =
      (allocScan w h (i + 1) rest).map
        (fun p => (p.1, p.2.1, Layer.Full :: p.2.2)) := rfl

theorem allocScan_some (w h : Nat) :
    ∀ (L : List Layer) (i : Nat) (r : Region) (j : Nat) (L' : List Layer),
      allocScan w h i L = some (r, j, L') →
      ∃ k al', j = i + k ∧ k < L.length ∧ L' = L.set k (Layer.Busy al') ∧
        r.width = w ∧ r.height = h ∧
        ((L[k]? = some Layer.Empty ∧
            (Allocator.new SIZE).allocate w h = some (r, al') ∧
            al'.allocated = 1) ∨
          (∃ al, L[k]? = some (Layer.Busy al) ∧
            al.allocate w h = some (r, al') ∧
            al'.allocated = al.allocated + 1)) := by
  intro L
  induction L with
  | nil => intro i r j L' hs; simp [allocScan_nil] at hs
  | cons l rest ih =>
    intro i r j L' hs
    have step :
        (∀ reg al', (match (l :: rest)[0]? with
            | some Layer.Empty => (Allocator.new SIZE).allocate w h
            | some (Layer.Busy al) => al.allocate w h
            | _ => none) = some (reg, al') → False) →
        True := fun _ => trivial
    clear step
    cases l with
    | Empty =>
      rw [allocScan_cons_Empty] at hs
      rcases hal : (Allocator.new SIZE).allocate w h with _ | ⟨reg, al'⟩
      · rw [hal] at hs
        simp only [] at hs
        rcases hrec : allocScan w h (i + 1) rest with _ | ⟨r', j', rest'⟩
        · rw [hrec] at hs; simp at hs
        · rw [hrec] at hs
          simp only [Option.map_some', Option.some.injEq, Prod.mk.injEq] at hs
          obtain ⟨h1, h2, h3⟩ := hs
          obtain ⟨k, al'', hj, hk, hset, hw', hh', hcase⟩ :=
            ih (i + 1) r' j' rest' hrec
          subst h1 h2
          refine ⟨k + 1, al'', by omega, by simp; omega, ?_, hw', hh', ?_⟩
          · rw [← h3, hset]; rfl
          · rcases hcase with ⟨hg, hal1, hcount⟩ | ⟨al2, hg, hal2, hcount⟩
            · rw [hal] at hal1
              simp at hal1
            · exact Or.inr ⟨al2, by simpa using hg, hal2, hcount⟩
      · rw [hal] at hs
        simp only [Option.some.injEq, Prod.mk.injEq] at hs
        obtain ⟨h1, h2, h3⟩ := hs
        subst h1 h2
        obtain ⟨hw', hh', hcount, _, _⟩ :=
          Allocator.allocate_some _ _ w h reg hal
        refine ⟨0, al', by omega, by simp, by rw [← h3]; rfl, hw', hh', ?_⟩
        exact Or.inl ⟨by simp, rfl, by simpa [Allocator.new] using hcount⟩
    | Busy al =>
      rw [allocScan_cons_Busy] at hs
      rcases hal : al.allocate w h with _ | ⟨reg, al'⟩
      · rw [hal] at hs
        simp only [] at hs
        rcases hrec : allocScan w h (i + 1) rest with _ | ⟨r', j', rest'⟩
        · rw [hrec] at hs; simp at hs
        · rw [hrec] at hs
          simp only [Option.map_some', Option.some.injEq, Prod.mk.injEq] at hs
          obtain ⟨h1, h2, h3⟩ := hs
          obtain ⟨k, al'', hj, hk, hset, hw', hh', hcase⟩ :=
            ih (i + 1) r' j' rest' hrec
          subst h1 h2
          refine ⟨k + 1, al'', by omega, by simp; omega, ?_, hw', hh', ?_⟩
          · rw [← h3, hset]; rfl
          · rcases hcase with ⟨hg, hal1, hcount⟩ | ⟨al2, hg, hal2, hcount⟩
            · exact Or.inl ⟨by simpa using hg, hal1, hcount⟩
            · exact Or.inr ⟨al2, by simpa using hg, hal2, hcount⟩
      · rw [hal] at hs
        simp only [Option.some.injEq, Prod.mk.injEq] at hs
        obtain ⟨h1, h2, h3⟩ := hs
        subst h1 h2
        obtain ⟨hw', hh', hcount, _, _⟩ :=
          Allocator.allocate_some _ _ w h reg hal
        refine ⟨0, al', by omega, by simp, by rw [← h3]; rfl, hw', hh', ?_⟩
        exact Or.inr ⟨al, by simp, hal, hcount⟩
    | Full =>
      rw [allocScan_cons_Full] at hs
      rcases hrec : allocScan w h (i + 1) rest with _ | ⟨r', j', rest'⟩
      · rw [hrec] at hs; simp at hs
      · rw [hrec] at hs
        simp only [Option.map_some', Option.some.injEq, Prod.mk.injEq] at hs
        obtain ⟨h1, h2, h3⟩ := hs
        obtain ⟨k, al'', hj, hk, hset, hw', hh', hcase⟩ :=
          ih (i + 1) r' j' rest' hrec
        subst h1 h2
        refine ⟨k + 1, al'', by omega, by simp; omega, ?_, hw', hh', ?_⟩
        · rw [← h3, hset]; rfl
        · rcases hcase with ⟨hg, hal1, hcount⟩ | ⟨al2, hg, hal2, hcount⟩
          · exact Or.inl ⟨by simpa using hg, hal1, hcount⟩
          · exact Or.inr ⟨al2, by simpa using hg, hal2, hcount⟩

/-! ### The three cases of a single (non-fragmented) allocation -/

theorem allocateFull_def (L : List Layer) :
    allocateFull L =
      match setFirstEmpty L with
      | some (i, L') => (some (.Contiguous (.Full i)), L')
      | none =>
        (some (.Contiguous (.Full L.length)), L ++ [Layer.Full]) := rfl

theorem allocateNormal_def (L : List Layer) (w h : Nat) :
    allocateNormal L w h =
      match allocScan w h 0 L with
      | some (region, i, L') =>
        (some (.Contiguous (.Partial i region)), L')
      | none =>
        match (Allocator.new SIZE).allocate w h with
        | some (region, allocator') =>
          (some (.Contiguous (.Partial L.length region)),
            L ++ [Layer.Busy allocator'])
        | none => (none, L) := rfl

theorem getElem?_some_lt {L : List Layer} {i : Nat} {l : Layer}
    (h : L[i]? = some l) : i < L.length := by
  by_contra hc
  rw [List.getElem?_eq_none (by omega)] at h
  exact absurd h (by simp)

theorem allocateFull_mono (L : List Layer) :
    L.length ≤ ((allocateFull L).2).length := by
  rw [allocateFull_def]
  rcases hse : setFirstEmpty L with _ | ⟨i, L2⟩
  · simp
  · obtain ⟨_, hset⟩ := setFirstEmpty_some_spec L i L2 hse
    simp [hset]

theorem allocateNormal_mono (L : List Layer) (w h : Nat) :
    L.length ≤ ((allocateNormal L w h).2).length := by
  rw [allocateNormal_def]
  rcases hscan : allocScan w h 0 L with _ | ⟨r, i, L2⟩
  · rcases hal : (Allocator.new SIZE).allocate w h with _ | ⟨reg, al'⟩
    · simp
    · simp
  · obtain ⟨k, al', _, _, hset, _⟩ := allocScan_some w h L 0 r i L2 hscan
    simp [hset]

theorem allocateBlock_mono (L : List Layer) (w h : Nat) :
    L.length ≤ ((allocateBlock L w h).2).length := by
  rw [allocateBlock]
  by_cases hfull : w = SIZE ∧ h = SIZE
  · rw [if_pos hfull]
    exact allocateFull_mono L
  · rw [if_neg hfull]
    exact allocateNormal_mono L w h

theorem allocateFull_busy (L : List Layer) (i : Nat) (al : Allocator)
    (hB : L[i]? = some (Layer.Busy al)) :
    ∃ al2, ((allocateFull L).2)[i]? = some (Layer.Busy al2) := by
  rw [allocateFull_def]
  rcases hse : setFirstEmpty L with _ | ⟨k, L2⟩
  · refine ⟨al, ?_⟩
    have hi := getElem?_some_lt hB
    simpa [List.getElem?_append, hi] using hB
  · obtain ⟨hg, hset⟩ := setFirstEmpty_some_spec L k L2 hse
    have hki : k ≠ i := by
      intro hk
      rw [hk, hB] at hg
      exact absurd hg (by simp)
    refine ⟨al, ?_⟩
    rw [hset, List.getElem?_set_ne hki]
    exact hB

theorem allocateNormal_busy (L : List Layer) (w h i : Nat) (al : Allocator)
    (hB : L[i]? = some (Layer.Busy al)) :
    ∃ al2, ((allocateNormal L w h).2)[i]? = some (Layer.Busy al2) := by
  rw [allocateNormal_def]
  rcases hscan : allocScan w h 0 L with _ | ⟨r, k, L2⟩
  · rcases hal : (Allocator.new SIZE).allocate w h with _ | ⟨reg, al'⟩
    · exact ⟨al, hB⟩
    · refine ⟨al, ?_⟩
      have hi := getElem?_some_lt hB
      simpa [List.getElem?_append, hi] using hB
  · obtain ⟨k', al', hjk, hk', hset, _⟩ :=
      allocScan_some w h L 0 r k L2 hscan
    by_cases hik : k' = i
    · refine ⟨al', ?_⟩
      rw [hset, hik, List.getElem?_set_self (by omega)]
    · refine ⟨al, ?_⟩
      rw [hset, List.getElem?_set_ne hik]
      exact hB

theorem allocateBlock_busy (L : List Layer) (w h i : Nat) (al : Allocator)
    (hB : L[i]? = some (Layer.Busy al)) :
    ∃ al2, ((allocateBlock L w h).2)[i]? = some (Layer.Busy al2) := by
  rw [allocateBlock]
  by_cases hfull : w = SIZE ∧ h = SIZE
  · rw [if_pos hfull]
    exact allocateFull_busy L i al hB
  · rw [if_neg hfull]
    exact allocateNormal_busy L w h i al hB

theorem allocateBlock_some (L : List Layer) (w h : Nat)
    (hw : 1 ≤ w) (hws : w ≤ SIZE) (hh : 1 ≤ h) (hhs : h ≤ SIZE) :
    ∃ a L', allocateBlock L w h = (some (Entry.Contiguous a), L') ∧
      Allocation.size a = (w, h) ∧ L.length ≤ L'.length := by
  rw [allocateBlock]
  by_cases hfull : w = SIZE ∧ h = SIZE
  · rw [if_pos hfull]
    rw [allocateFull_def]
    rcases hse : setFirstEmpty L with _ | ⟨i, L2⟩
    · refine ⟨.Full L.length, L ++ [Layer.Full], rfl, ?_, by simp⟩
      simp [Allocation.size, hfull.1, hfull.2]
    · obtain ⟨hg, hset⟩ := setFirstEmpty_some_spec L i L2 hse
      refine ⟨.Full i, L2, rfl, ?_, by rw [hset]; simp⟩
      simp [Allocation.size, hfull.1, hfull.2]
  · rw [if_neg hfull]
    rw [allocateNormal_def]
    rcases hscan : allocScan w h 0 L with _ | ⟨r, i, L2⟩
    · rw [Allocator.new_allocate w h hw hh hws hhs]
      refine ⟨.Partial L.length ⟨0, 0, w, h⟩,
        L ++ [Layer.Busy ⟨splitLeftovers ⟨0, 0, SIZE, SIZE⟩ w h, 1⟩],
        rfl, ?_, by simp⟩
      simp [Allocation.size, Region.size]
    · obtain ⟨k, al', hj, hk, hset, hw', hh', _⟩ :=
        allocScan_some w h L 0 r i L2 hscan
      refine ⟨.Partial i r, L2, rfl, ?_, by rw [hset]; simp⟩
      simp [Allocation.size, Region.size, hw', hh']


/-! ### Loop-level invariants -/

theorem allocRow_mono (w hb y : Nat) :
    ∀ (n x : Nat) (L : List Layer) (acc : List Fragment), w - x ≤ n →
      L.length ≤ ((allocRow w hb y x L acc).2).length := by
  intro n
  induction n with
  | zero =>
    intro x L acc hn
    rw [allocRow_stop _ _ _ _ _ _ (by omega)]
  | succ n ih =>
    intro x L acc hn
    by_cases hx : x < w
    · rw [allocRow_step _ _ _ _ _ _ hx]
      have hwb : 1 ≤ min (w - x) SIZE := by
        have := size_pos
        omega
      rcases hblock : allocateBlock L (min (w - x) SIZE) hb with ⟨oe, L1⟩
      have hmono := allocateBlock_mono L (min (w - x) SIZE) hb
      rw [hblock] at hmono
      cases oe with
      | none => simpa using hmono
      | some e =>
        exact le_trans hmono (ih (x + min (w - x) SIZE) L1 _ (by omega))
    · rw [allocRow_stop _ _ _ _ _ _ hx]

theorem allocRows_mono (w h : Nat) :
    ∀ (n y : Nat) (L : List Layer) (acc : List Fragment), h - y ≤ n →
      L.length ≤ ((allocRows w h y L acc).2).length := by
  intro n
  induction n with
  | zero =>
    intro y L acc hn
    rw [allocRows_stop _ _ _ _ _ (by omega)]
  | succ n ih =>
    intro y L acc hn
    by_cases hy : y < h
    · rw [allocRows_step _ _ _ _ _ hy]
      have hhb : 1 ≤ min (h - y) SIZE := by
        have := size_pos
        omega
      rcases hrow : allocRow w (min (h - y) SIZE) y 0 L acc with ⟨oa, L1⟩
      have hmono := allocRow_mono w (min (h - y) SIZE) y w 0 L acc (by omega)
      rw [hrow] at hmono
      cases oa with
      | none => simpa using hmono
      | some acc1 =>
        exact le_trans hmono (ih (y + min (h - y) SIZE) L1 acc1 (by omega))
    · rw [allocRows_stop _ _ _ _ _ hy]

theorem allocRow_busy (w hb y i : Nat) :
    ∀ (n x : Nat) (L : List Layer) (acc : List Fragment) (al : Allocator),
      w - x ≤ n → L[i]? = some (Layer.Busy al) →
      ∃ al2, (((allocRow w hb y x L acc).2))[i]? = some (Layer.Busy al2) := by
  intro n
  induction n with
  | zero =>
    intro x L acc al hn hB
    rw [allocRow_stop _ _ _ _ _ _ (by omega)]
    exact ⟨al, hB⟩
  | succ n ih =>
    intro x L acc al hn hB
    by_cases hx : x < w
    · rw [allocRow_step _ _ _ _ _ _ hx]
      have hwb : 1 ≤ min (w - x) SIZE := by
        have := size_pos
        omega
      rcases hblock : allocateBlock L (min (w - x) SIZE) hb with ⟨oe, L1⟩
      have hbusy := allocateBlock_busy L (min (w - x) SIZE) hb i al hB
      rw [hblock] at hbusy
      obtain ⟨al2, hal2⟩ := hbusy
      cases oe with
      | none => exact ⟨al2, hal2⟩
      | some e =>
        exact ih (x + min (w - x) SIZE) L1 _ al2 (by omega) hal2
    · rw [allocRow_stop _ _ _ _ _ _ hx]
      exact ⟨al, hB⟩

theorem allocRows_busy (w h i : Nat) :
    ∀ (n y : Nat) (L : List Layer) (acc : List Fragment) (al : Allocator),
      h - y ≤ n → L[i]? = some (Layer.Busy al) →
      ∃ al2, (((allocRows w h y L acc).2))[i]? = some (Layer.Busy al2) := by
  intro n
  induction n with
  | zero =>
    intro y L acc al hn hB
    rw [allocRows_stop _ _ _ _ _ (by omega)]
    exact ⟨al, hB⟩
  | succ n ih =>
    intro y L acc al hn hB
    by_cases hy : y < h
    · rw [allocRows_step _ _ _ _ _ hy]
      have hhb : 1 ≤ min (h - y) SIZE := by
        have := size_pos
        omega
      rcases hrow : allocRow w (min (h - y) SIZE) y 0 L acc with ⟨oa, L1⟩
      have hbusy := allocRow_busy w (min (h - y) SIZE) y i w 0 L acc al
        (by omega) hB
      rw [hrow] at hbusy
      obtain ⟨al2, hal2⟩ := hbusy
      cases oa with
      | none => exact ⟨al2, hal2⟩
      | some acc1 =>
        exact ih (y + min (h - y) SIZE) L1 acc1 al2 (by omega) hal2
    · rw [allocRows_stop _ _ _ _ _ hy]
      exact ⟨al, hB⟩

/-! ### Whole-allocation lemmas -/

theorem allocate_eq_full (L : List Layer) (w h : Nat)
    (hw : w = SIZE) (hh : h = SIZE) : allocate L w h = allocateFull L := by
  rw [allocate, if_pos ⟨hw, hh⟩]

theorem allocate_eq_normal (L : List Layer) (w h : Nat)
    (hws : w ≤ SIZE) (hhs : h ≤ SIZE) (hne : ¬ (w = SIZE ∧ h = SIZE)) :
    allocate L w h = allocateNormal L w h := by
  rw [allocate, if_neg hne, if_neg (by omega)]

theorem allocate_eq_block (L : List Layer) (w h : Nat)
    (hws : w ≤ SIZE) (hhs : h ≤ SIZE) :
    allocate L w h = allocateBlock L w h := by
  rw [allocateBlock]
  by_cases hfull : w = SIZE ∧ h = SIZE
  · rw [if_pos hfull]
    exact allocate_eq_full L w h hfull.1 hfull.2
  · rw [if_neg hfull]
    exact allocate_eq_normal L w h hws hhs hfull

theorem allocate_eq_fragmented (L : List Layer) (w h : Nat)
    (hover : SIZE < w ∨ SIZE < h) :
    allocate L w h =
      match allocRows w h 0 L [] with
      | (some fragments, L') => (some (.Fragmented (w, h) fragments), L')
      | (none, L') => (none, L') := by
  rw [allocate, if_neg (by omega), if_pos hover]

theorem allocate_mono (L : List Layer) (w h : Nat) :
    L.length ≤ ((allocate L w h).2).length := by
  by_cases hover : SIZE < w ∨ SIZE < h
  · rw [allocate_eq_fragmented L w h hover]
    rcases hrows : allocRows w h 0 L [] with ⟨ofr, L1⟩
    have hmono := allocRows_mono w h h 0 L [] (by omega)
    rw [hrows] at hmono
    cases ofr with
    | none => simpa using hmono
    | some fr => simpa using hmono
  · rw [allocate_eq_block L w h (by omega) (by omega)]
    exact allocateBlock_mono L w h

theorem allocate_busy (L : List Layer) (w h i : Nat) (al : Allocator)
    (hB : L[i]? = some (Layer.Busy al)) :
    ∃ al2, (((allocate L w h).2))[i]? = some (Layer.Busy al2) := by
  by_cases hover : SIZE < w ∨ SIZE < h
  · rw [allocate_eq_fragmented L w h hover]
    rcases hrows : allocRows w h 0 L [] with ⟨ofr, L1⟩
    have hbusy := allocRows_busy w h i h 0 L [] al (by omega) hB
    rw [hrows] at hbusy
    obtain ⟨al2, hal2⟩ := hbusy
    cases ofr with
    | none => exact ⟨al2, hal2⟩
    | some fr => exact ⟨al2, hal2⟩
  · rw [allocate_eq_block L w h (by omega) (by omega)]
    exact allocateBlock_busy L w h i al hB



/-! ### Success of the fragmented loops and the tiling they produce -/

theorem allocRow_spec (w hb y : Nat) (hb1 : 1 ≤ hb) (hbS : hb ≤ SIZE) :
    ∀ (n x : Nat) (L : List Layer) (acc : List Fragment), w - x ≤ n →
      ∃ fr L', allocRow w hb y x L acc = (some (acc ++ fr), L') ∧
        fr.map (fun f => (f.position, f.allocation.size)) = tilesRow w hb y x := by
  intro n
  induction n with
  | zero =>
    intro x L acc hn
    rw [allocRow_stop _ _ _ _ _ _ (by omega), tilesRow_stop _ _ _ _ (by omega)]
    exact ⟨[], L, by simp, by simp⟩
  | succ n ih =>
    intro x L acc hn
    by_cases hx : x < w
    · have hwb1 : 1 ≤ min (w - x) SIZE := by
        have := size_pos
        omega
      have hwbS : min (w - x) SIZE ≤ SIZE := Nat.min_le_right _ _
      obtain ⟨a, L1, hblock, hsize, _⟩ :=
        allocateBlock_some L (min (w - x) SIZE) hb hwb1 hwbS hb1 hbS
      rw [allocRow_step _ _ _ _ _ _ hx, hblock]
      obtain ⟨fr2, L2, hrec, hmap⟩ :=
        ih (x + min (w - x) SIZE) L1 (acc ++ [⟨(x, y), a⟩]) (by omega)
      refine ⟨⟨(x, y), a⟩ :: fr2, L2, ?_, ?_⟩
      · show allocRow w hb y (x + min (w - x) SIZE) L1 (acc ++ [⟨(x, y), a⟩]) =
          (some (acc ++ (⟨(x, y), a⟩ :: fr2)), L2)
        rw [hrec]
        simp
      · rw [tilesRow_step _ _ _ _ hx]
        simp [hsize, hmap]
    · rw [allocRow_stop _ _ _ _ _ _ hx, tilesRow_stop _ _ _ _ hx]
      exact ⟨[], L, by simp, by simp⟩

theorem allocRows_spec (w h : Nat) :
    ∀ (n y : Nat) (L : List Layer) (acc : List Fragment), h - y ≤ n →
      ∃ fr L', allocRows w h y L acc = (some (acc ++ fr), L') ∧
        fr.map (fun f => (f.position, f.allocation.size)) = tiles w h y := by
  intro n
  induction n with
  | zero =>
    intro y L acc hn
    rw [allocRows_stop _ _ _ _ _ (by omega), tiles_stop _ _ _ (by omega)]
    exact ⟨[], L, by simp, by simp⟩
  | succ n ih =>
    intro y L acc hn
    by_cases hy : y < h
    · have hhb1 : 1 ≤ min (h - y) SIZE := by
        have := size_pos
        omega
      have hhbS : min (h - y) SIZE ≤ SIZE := Nat.min_le_right _ _
      obtain ⟨fr1, L1, hrow, hmap1⟩ :=
        allocRow_spec w (min (h - y) SIZE) y hhb1 hhbS w 0 L acc (by omega)
      rw [allocRows_step _ _ _ _ _ hy, hrow]
      obtain ⟨fr2, L2, hrec, hmap2⟩ :=
        ih (y + min (h - y) SIZE) L1 (acc ++ fr1) (by omega)
      refine ⟨fr1 ++ fr2, L2, ?_, ?_⟩
      · show allocRows w h (y + min (h - y) SIZE) L1 (acc ++ fr1) =
          (some (acc ++ (fr1 ++ fr2)), L2)
        rw [hrec]
        simp
      · rw [tiles_step _ _ _ hy]
        simp [hmap1, hmap2]
    · rw [allocRows_stop _ _ _ _ _ hy, tiles_stop _ _ _ hy]
      exact ⟨[], L, by simp, by simp⟩

theorem allocate_oversized_eq (L : List Layer) (w h : Nat)
    (hover : SIZE < w ∨ SIZE < h) :
    ∃ fr L', allocate L w h = (some (.Fragmented (w, h) fr), L') ∧
      fr.map (fun f => (f.position, f.allocation.size)) = tiles w h 0 := by
  obtain ⟨fr, L', hrows, hmap⟩ := allocRows_spec w h h 0 L [] (by omega)
  refine ⟨fr, L', ?_, hmap⟩
  rw [allocate_eq_fragmented L w h hover, hrows]
  simp

theorem allocate_none_eq (L : List Layer) (w h : Nat)
    (hfail : (allocate L w h).1 = none) : allocate L w h = (none, L) := by
  by_cases hover : SIZE < w ∨ SIZE < h
  · obtain ⟨fr, L', heq, _⟩ := allocate_oversized_eq L w h hover
    rw [heq] at hfail
    simp at hfail
  · by_cases hfull : w = SIZE ∧ h = SIZE
    · rw [allocate_eq_full L w h hfull.1 hfull.2] at hfail ⊢
      rw [allocateFull_def] at hfail ⊢
      rcases hse : setFirstEmpty L with _ | ⟨i, L2⟩ <;>
        rw [hse] at hfail <;> simp at hfail
    · rw [allocate_eq_normal L w h (by omega) (by omega) hfull] at hfail ⊢
      rw [allocateNormal_def] at hfail ⊢
      rcases hscan : allocScan w h 0 L with _ | ⟨r, i, L2⟩
      · rw [hscan] at hfail
        rcases hal : (Allocator.new SIZE).allocate w h with _ | ⟨reg, al'⟩
        · rfl
        · rw [hal] at hfail
          simp at hfail
      · rw [hscan] at hfail
        simp at hfail



/-! ### Geometry of the tiling: bounds and exactly-once coverage -/

theorem tilesRow_mem (w hb y : Nat) :
    ∀ (n x : Nat), w - x ≤ n → ∀ t ∈ tilesRow w hb y x,
      x ≤ t.1.1 ∧ t.1.1 + t.2.1 ≤ w ∧ t.1.2 = y ∧ t.2.2 = hb := by
  intro n
  induction n with
  | zero =>
    intro x hn t ht
    rw [tilesRow_stop _ _ _ _ (by omega)] at ht
    simp at ht
  | succ n ih =>
    intro x hn t ht
    by_cases hx : x < w
    · rw [tilesRow_step _ _ _ _ hx] at ht
      have hwb1 : 1 ≤ min (w - x) SIZE := by
        have := size_pos
        omega
      have hwble : min (w - x) SIZE ≤ w - x := Nat.min_le_left _ _
      rcases List.mem_cons.mp ht with heq | htail
      · subst heq
        refine ⟨le_refl x, by simp; omega, rfl, rfl⟩
      · obtain ⟨h1, h2, h3, h4⟩ := ih (x + min (w - x) SIZE) (by omega) t htail
        exact ⟨by omega, h2, h3, h4⟩
    · rw [tilesRow_stop _ _ _ _ hx] at ht
      simp at ht

theorem tilesRow_countP_zero_left (w hb y px py x : Nat) (hlt : px < x) :
    (tilesRow w hb y x).countP (fun t => coversPt t.1 t.2 px py) = 0 := by
  rw [List.countP_eq_zero]
  intro t ht
  obtain ⟨h1, _, _, _⟩ := tilesRow_mem w hb y w x (by omega) t ht
  simp only [coversPt, decide_eq_true_eq]
  intro hcon
  omega

theorem tilesRow_countP_zero_row (w hb y px py x : Nat)
    (hrow : ¬ (y ≤ py ∧ py < y + hb)) :
    (tilesRow w hb y x).countP (fun t => coversPt t.1 t.2 px py) = 0 := by
  rw [List.countP_eq_zero]
  intro t ht
  obtain ⟨_, _, h3, h4⟩ := tilesRow_mem w hb y w x (by omega) t ht
  simp only [coversPt, decide_eq_true_eq]
  intro hcon
  rw [h3, h4] at hcon
  exact hrow ⟨hcon.2.2.1, hcon.2.2.2⟩

theorem tilesRow_countP_one (w hb y px py : Nat) (hpy : y ≤ py)
    (hpy2 : py < y + hb) :
    ∀ (n x : Nat), w - x ≤ n → x ≤ px → px < w →
      (tilesRow w hb y x).countP (fun t => coversPt t.1 t.2 px py) = 1 := by
  intro n
  induction n with
  | zero =>
    intro x hn hxle hpx
    omega
  | succ n ih =>
    intro x hn hxle hpx
    have hx : x < w := by omega
    rw [tilesRow_step _ _ _ _ hx, List.countP_cons]
    have hwb1 : 1 ≤ min (w - x) SIZE := by
      have := size_pos
      omega
    by_cases hin : px < x + min (w - x) SIZE
    · rw [tilesRow_countP_zero_left w hb y px py _ hin]
      have : coversPt (x, y) (min (w - x) SIZE, hb) px py = true := by
        simp only [coversPt, decide_eq_true_eq]
        exact ⟨hxle, hin, hpy, hpy2⟩
      rw [this]
      simp
    · have : coversPt (x, y) (min (w - x) SIZE, hb) px py = false := by
        simp only [coversPt, decide_eq_false_iff_not]
        intro hcon
        exact hin hcon.2.1
      rw [this]
      simp only [Bool.false_eq_true, if_false, Nat.add_zero]
      exact ih (x + min (w - x) SIZE) (by omega) (by omega) hpx

theorem tiles_mem (w h : Nat) :
    ∀ (n y : Nat), h - y ≤ n → ∀ t ∈ tiles w h y,
      t.1.1 + t.2.1 ≤ w ∧ t.1.2 + t.2.2 ≤ h ∧ y ≤ t.1.2 := by
  intro n
  induction n with
  | zero =>
    intro y hn t ht
    rw [tiles_stop _ _ _ (by omega)] at ht
    simp at ht
  | succ n ih =>
    intro y hn t ht
    by_cases hy : y < h
    · rw [tiles_step _ _ _ hy] at ht
      have hhb1 : 1 ≤ min (h - y) SIZE := by
        have := size_pos
        omega
      have hhble : min (h - y) SIZE ≤ h - y := Nat.min_le_left _ _
      rcases List.mem_append.mp ht with hrow | hrest
      · obtain ⟨_, h2, h3, h4⟩ :=
          tilesRow_mem w (min (h - y) SIZE) y w 0 (by omega) t hrow
        refine ⟨h2, ?_, by omega⟩
        rw [h3, h4]
        omega
      · obtain ⟨h1, h2, h3⟩ := ih (y + min (h - y) SIZE) (by omega) t hrest
        exact ⟨h1, h2, by omega⟩
    · rw [tiles_stop _ _ _ hy] at ht
      simp at ht

theorem tiles_countP_zero_above (w h px py : Nat) :
    ∀ (n y : Nat), h - y ≤ n → py < y →
      (tiles w h y).countP (fun t => coversPt t.1 t.2 px py) = 0 := by
  intro n
  induction n with
  | zero =>
    intro y hn hlt
    by_cases hy : y < h
    · omega
    · rw [tiles_stop _ _ _ hy]
      rfl
  | succ n ih =>
    intro y hn hlt
    by_cases hy : y < h
    · rw [tiles_step _ _ _ hy, List.countP_append]
      have hhb1 : 1 ≤ min (h - y) SIZE := by
        have := size_pos
        omega
      rw [tilesRow_countP_zero_row w _ y px py 0 (by omega)]
      rw [ih (y + min (h - y) SIZE) (by omega) (by omega)]
    · rw [tiles_stop _ _ _ hy]
      rfl

theorem tiles_countP_one (w h px py : Nat) (hpx : px < w) (hpyh : py < h) :
    ∀ (n y : Nat), h - y ≤ n → y ≤ py →
      (tiles w h y).countP (fun t => coversPt t.1 t.2 px py) = 1 := by
  intro n
  induction n with
  | zero =>
    intro y hn hyle
    omega
  | succ n ih =>
    intro y hn hyle
    have hy : y < h := by omega
    rw [tiles_step _ _ _ hy, List.countP_append]
    have hhb1 : 1 ≤ min (h - y) SIZE := by
      have := size_pos
      omega
    by_cases hin : py < y + min (h - y) SIZE
    · rw [tilesRow_countP_one w _ y px py hyle hin w 0 (by omega) (by omega)
        hpx]
      rw [tiles_countP_zero_above w h px py h (y + min (h - y) SIZE)
        (by omega) (by omega)]
    · rw [tilesRow_countP_zero_row w _ y px py 0 (by omega)]
      rw [ih (y + min (h - y) SIZE) (by omega) (by omega)]



/-! ### Claim theorems -/

/-- C2: every successful oversized request (`width > SIZE` or
`height > SIZE`) yields a `Fragmented` entry whose size field is the
requested `(width, height)` and whose fragments, in row-major order,
are exactly the min-capped SIZE tiling of the requested rectangle: the
recorded offsets and block sizes equal `tiles`, every block lies inside
the requested rectangle, and every point of the rectangle is covered by
exactly one fragment (no gaps, no overlaps). -/
theorem allocate_oversized_tiling (L : List Layer) (w h : Nat)
    (hover : SIZE < w ∨ SIZE < h) (e : Entry) (L' : List Layer)
    (halloc : allocate L w h = (some e, L')) :
    ∃ fr, e = .Fragmented (w, h) fr ∧ Entry.size e = (w, h) ∧
      fr.map (fun f => (f.position, f.allocation.size)) = tiles w h 0 ∧
      (∀ f ∈ fr, f.position.1 + (f.allocation.size).1 ≤ w ∧
        f.position.2 + (f.allocation.size).2 ≤ h) ∧
      (∀ px py : Nat, px < w → py < h →
        fr.countP
          (fun f => coversPt f.position f.allocation.size px py) = 1) := by
  obtain ⟨fr, L2, heq, hmap⟩ := allocate_oversized_eq L w h hover
  rw [halloc] at heq
  simp only [Prod.mk.injEq, Option.some.injEq] at heq
  obtain ⟨he, hL⟩ := heq
  subst he
  refine ⟨fr, rfl, rfl, hmap, ?_, ?_⟩
  · intro f hf
    have hmem : (f.position, f.allocation.size) ∈ tiles w h 0 := by
      rw [← hmap]
      exact List.mem_map_of_mem _ hf
    obtain ⟨h1, h2, _⟩ := tiles_mem w h h 0 (by omega) _ hmem
    exact ⟨h1, h2⟩
  · intro px py hx hy
    have hcnt := tiles_countP_one w h px py hx hy h 0 (by omega) (by omega)
    rw [← hmap, List.countP_map] at hcnt
    simpa [Function.comp] using hcnt

/-- Witness for C2: requesting `3000 × 1000` on a fresh atlas with
`SIZE = 2048` produces exactly two fragments, at image offsets `(0, 0)`
with block size `(2048, 1000)` and `(2048, 0)` with block size
`(952, 1000)`, and the theorem applies to this allocation. -/
theorem allocate_oversized_tiling_witness :
    (SIZE < 3000 ∨ SIZE < 1000) ∧
    allocate [Layer.Empty] 3000 1000 =
      (some (Entry.Fragmented (3000, 1000)
        [⟨(0, 0), .Partial 0 ⟨0, 0, 2048, 1000⟩⟩,
         ⟨(2048, 0), .Partial 0 ⟨0, 1000, 952, 1000⟩⟩]),
       [Layer.Busy ⟨[⟨952, 1000, 1096, 1000⟩, ⟨0, 2000, 2048, 48⟩], 2⟩]) ∧
    (∃ fr, (Entry.Fragmented (3000, 1000)
        [⟨(0, 0), .Partial 0 ⟨0, 0, 2048, 1000⟩⟩,
         ⟨(2048, 0), .Partial 0 ⟨0, 1000, 952, 1000⟩⟩] : Entry) =
          .Fragmented (3000, 1000) fr ∧
      Entry.size (Entry.Fragmented (3000, 1000)
        [⟨(0, 0), .Partial 0 ⟨0, 0, 2048, 1000⟩⟩,
         ⟨(2048, 0), .Partial 0 ⟨0, 1000, 952, 1000⟩⟩]) = (3000, 1000) ∧
      fr.map (fun f => (f.position, f.allocation.size)) =
        tiles 3000 1000 0 ∧
      (∀ f ∈ fr, f.position.1 + (f.allocation.size).1 ≤ 3000 ∧
        f.position.2 + (f.allocation.size).2 ≤ 1000) ∧
      (∀ px py : Nat, px < 3000 → py < 1000 →
        fr.countP
          (fun f => coversPt f.position f.allocation.size px py) = 1)) := by
  have e1 : allocateBlock [Layer.Empty] 2048 1000 =
      (some (.Contiguous (.Partial 0 ⟨0, 0, 2048, 1000⟩)),
       [Layer.Busy ⟨[⟨0, 1000, 2048, 1048⟩], 1⟩]) := by decide
  have e2 : allocateBlock [Layer.Busy ⟨[⟨0, 1000, 2048, 1048⟩], 1⟩]
        952 1000 =
      (some (.Contiguous (.Partial 0 ⟨0, 1000, 952, 1000⟩)),
       [Layer.Busy ⟨[⟨952, 1000, 1096, 1000⟩, ⟨0, 2000, 2048, 48⟩], 2⟩]) := by
    decide
  have hrow : allocRow 3000 1000 0 0 [Layer.Empty] [] =
      (some [⟨(0, 0), .Partial 0 ⟨0, 0, 2048, 1000⟩⟩,
             ⟨(2048, 0), .Partial 0 ⟨0, 1000, 952, 1000⟩⟩],
       [Layer.Busy ⟨[⟨952, 1000, 1096, 1000⟩, ⟨0, 2000, 2048, 48⟩], 2⟩]) := by
    rw [allocRow_step 3000 1000 0 0 [Layer.Empty] [] (by decide)]
    rw [show min (3000 - 0) SIZE = 2048 from by decide]
    rw [e1]
    show allocRow 3000 1000 0 (0 + 2048)
      [Layer.Busy ⟨[⟨0, 1000, 2048, 1048⟩], 1⟩]
      [⟨(0, 0), .Partial 0 ⟨0, 0, 2048, 1000⟩⟩] = _
    rw [allocRow_step 3000 1000 0 (0 + 2048) _ _ (by decide)]
    rw [show min (3000 - (0 + 2048)) SIZE = 952 from by decide]
    rw [e2]
    show allocRow 3000 1000 0 (0 + 2048 + 952)
      [Layer.Busy ⟨[⟨952, 1000, 1096, 1000⟩, ⟨0, 2000, 2048, 48⟩], 2⟩]
      [⟨(0, 0), .Partial 0 ⟨0, 0, 2048, 1000⟩⟩,
       ⟨(2048, 0), .Partial 0 ⟨0, 1000, 952, 1000⟩⟩] = _
    rw [allocRow_stop 3000 1000 0 (0 + 2048 + 952) _ _ (by decide)]
  have hconc : allocate [Layer.Empty] 3000 1000 =
      (some (Entry.Fragmented (3000, 1000)
        [⟨(0, 0), .Partial 0 ⟨0, 0, 2048, 1000⟩⟩,
         ⟨(2048, 0), .Partial 0 ⟨0, 1000, 952, 1000⟩⟩]),
       [Layer.Busy ⟨[⟨952, 1000, 1096, 1000⟩, ⟨0, 2000, 2048, 48⟩], 2⟩]) := by
    rw [allocate_eq_fragmented [Layer.Empty] 3000 1000 (by decide)]
    rw [allocRows_step 3000 1000 0 [Layer.Empty] [] (by decide)]
    rw [show min (1000 - 0) SIZE = 1000 from by decide]
    rw [hrow]
    show (match allocRows 3000 1000 (0 + 1000)
        [Layer.Busy ⟨[⟨952, 1000, 1096, 1000⟩, ⟨0, 2000, 2048, 48⟩], 2⟩]
        [⟨(0, 0), .Partial 0 ⟨0, 0, 2048, 1000⟩⟩,
         ⟨(2048, 0), .Partial 0 ⟨0, 1000, 952, 1000⟩⟩] with
      | (some fragments, L') =>
        (some (Entry.Fragmented (3000, 1000) fragments), L')
      | (none, L') => (none, L')) = _
    rw [allocRows_stop 3000 1000 (0 + 1000) _ _ (by decide)]
  refine ⟨by decide, hconc, ?_⟩
  exact allocate_oversized_tiling [Layer.Empty] 3000 1000
    (by decide) _ _ hconc



/-! ### Unfolding lemmas for entry_for, deallocate and remove -/

theorem Atlas.entry_for_def (β : Type) (a : Atlas β) (w h : Nat)
    (grow : β → List Layer → Nat → β) :
    a.entry_for w h grow =
      match allocate a.layers w h with
      | (none, L') => (none, { a with layers := L' })
      | (some e, L') =>
        (some e,
          { backend := grow a.backend L' (L'.length - a.layers.length),
            layers := L' }) := rfl

theorem deallocate_Full (L : List Layer) (i : Nat) :
    deallocate L (.Full i) = L.set i Layer.Empty := rfl

theorem deallocate_Partial (L : List Layer) (i : Nat) (r : Region) :
    deallocate L (.Partial i r) =
      match L[i]? with
      | some (.Busy allocator) =>
        if (allocator.deallocate r).is_empty then L.set i Layer.Empty
        else L.set i (Layer.Busy (allocator.deallocate r))
      | _ => L := rfl

theorem remove_Contiguous (L : List Layer) (a : Allocation) :
    remove L (.Contiguous a) = deallocate L a := rfl

theorem remove_Fragmented (L : List Layer) (sz : Nat × Nat)
    (fr : List Fragment) :
    remove L (.Fragmented sz fr) =
      fr.foldl (fun acc f => deallocate acc f.allocation) L := rfl

theorem deallocate_length (L : List Layer) (a : Allocation) :
    (deallocate L a).length = L.length := by
  cases a with
  | Full i => rw [deallocate_Full, List.length_set]
  | Partial i r =>
    rw [deallocate_Partial]
    rcases hg : L[i]? with _ | l
    · rfl
    · cases l with
      | Empty => rfl
      | Busy al =>
        dsimp only
        split <;> rw [List.length_set]
      | Full => rfl

theorem foldl_deallocate_length :
    ∀ (fr : List Fragment) (L : List Layer),
      (fr.foldl (fun acc f => deallocate acc f.allocation) L).length =
        L.length := by
  intro fr
  induction fr with
  | nil => intro L; rfl
  | cons f fr ih =>
    intro L
    rw [List.foldl_cons, ih, deallocate_length]

theorem remove_length (L : List Layer) (e : Entry) :
    (remove L e).length = L.length := by
  cases e with
  | Contiguous a => rw [remove_Contiguous, deallocate_length]
  | Fragmented sz fr => rw [remove_Fragmented, foldl_deallocate_length]

/-- C1: whenever the allocation cannot be satisfied, `entry_for` returns
nothing and the whole atlas — in particular the layer sequence, its
count and every layer's Empty/Busy/Full classification — is exactly the
state it was in before the call: no partial or leaked region remains.
(In this model an oversized request's blocks always fit a fresh layer,
so a fragmented attempt never fails part-way; the only failing requests
are zero-sized ones, which mutate nothing.) -/
theorem entry_for_failure_state_unchanged (β : Type) (a : Atlas β)
    (w h : Nat) (grow : β → List Layer → Nat → β)
    (hfail : (allocate a.layers w h).1 = none) :
    a.entry_for w h grow = (none, a) := by
  have heq := allocate_none_eq a.layers w h hfail
  rw [Atlas.entry_for_def, heq]

/-- Witness for C1: a zero-width request on a fresh atlas fails and the
atlas is returned unchanged. -/
theorem entry_for_failure_state_unchanged_witness :
    (allocate (Atlas.new (0 : Nat)).layers 0 5).1 = none ∧
    (Atlas.new (0 : Nat)).entry_for 0 5 (fun b ls n => b + ls.length + n) =
      (none, Atlas.new (0 : Nat)) :=
  ⟨by decide,
    entry_for_failure_state_unchanged Nat (Atlas.new 0) 0 5 _ (by decide)⟩

/-- C9: when the allocation fails, `entry_for` returns nothing without
ever invoking the grow callback: the result does not depend on the
callback at all, and the backend is left untouched. -/
theorem entry_for_failure_no_grow (β : Type) (a : Atlas β) (w h : Nat)
    (hfail : (allocate a.layers w h).1 = none) :
    ∀ grow grow' : β → List Layer → Nat → β,
      a.entry_for w h grow = a.entry_for w h grow' ∧
      (a.entry_for w h grow).1 = none ∧
      ((a.entry_for w h grow).2).backend = a.backend := by
  intro grow grow'
  have heq := allocate_none_eq a.layers w h hfail
  rw [Atlas.entry_for_def, Atlas.entry_for_def, heq]
  exact ⟨rfl, rfl, rfl⟩

/-- Witness for C9: a failing request yields the same `(none, atlas)`
result under two different callbacks, with the backend unchanged. -/
theorem entry_for_failure_no_grow_witness :
    (allocate (Atlas.new (0 : Nat)).layers 0 5).1 = none ∧
    ((Atlas.new (0 : Nat)).entry_for 0 5 (fun b _ _ => b + 1) =
        (Atlas.new (0 : Nat)).entry_for 0 5 (fun b _ _ => b + 2) ∧
      ((Atlas.new (0 : Nat)).entry_for 0 5 (fun b _ _ => b + 1)).1 = none ∧
      (((Atlas.new (0 : Nat)).entry_for 0 5 (fun b _ _ => b + 1)).2).backend =
        (Atlas.new (0 : Nat)).backend) :=
  ⟨by decide,
    entry_for_failure_no_grow Nat (Atlas.new 0) 0 5 (by decide) _ _⟩

/-- C4: on every successful `entry_for` the grow callback is applied
exactly once — the resulting backend is exactly one application of the
callback to the pre-call backend, the post-allocation layer sequence and
the layer-count delta — and the entry is the one allocation produced.
When no layer was appended the callback observes `new_layers = 0`; when
exactly one was appended it observes `new_layers = 1`. -/
theorem entry_for_grow_once (β : Type) (a : Atlas β) (w h : Nat)
    (grow : β → List Layer → Nat → β) (e : Entry) (L' : List Layer)
    (halloc : allocate a.layers w h = (some e, L')) :
    a.entry_for w h grow =
      (some e,
        { backend := grow a.backend L' (L'.length - a.layers.length),
          layers := L' }) ∧
    (L'.length = a.layers.length →
      a.entry_for w h grow =
        (some e, { backend := grow a.backend L' 0, layers := L' })) ∧
    (L'.length = a.layers.length + 1 →
      a.entry_for w h grow =
        (some e, { backend := grow a.backend L' 1, layers := L' })) := by
  have hmain : a.entry_for w h grow =
      (some e,
        { backend := grow a.backend L' (L'.length - a.layers.length),
          layers := L' }) := by
    rw [Atlas.entry_for_def, halloc]
  refine ⟨hmain, ?_, ?_⟩
  · intro h0
    rw [hmain, h0, Nat.sub_self]
  · intro h1
    rw [hmain, h1, Nat.add_sub_cancel_left]

/-- Witness for C4: a `1 × 1` request on a fresh one-layer atlas
succeeds in place, and the callback is applied to the post-allocation
layers with `new_layers = 0`. -/
theorem entry_for_grow_once_witness :
    allocate (Atlas.mk (7 : Nat) [Layer.Empty]).layers 1 1 =
      (some (.Contiguous (.Partial 0 ⟨0, 0, 1, 1⟩)),
        [Layer.Busy ⟨[⟨1, 0, 2047, 1⟩, ⟨0, 1, 2048, 2047⟩], 1⟩]) ∧
    ((Atlas.mk (7 : Nat) [Layer.Empty]).entry_for 1 1
        (fun b ls n => b + ls.length + n) =
      (some (.Contiguous (.Partial 0 ⟨0, 0, 1, 1⟩)),
        { backend := (fun (b : Nat) (ls : List Layer) (n : Nat) =>
            b + ls.length + n) 7
            [Layer.Busy ⟨[⟨1, 0, 2047, 1⟩, ⟨0, 1, 2048, 2047⟩], 1⟩]
            ([Layer.Busy ⟨[⟨1, 0, 2047, 1⟩, ⟨0, 1, 2048, 2047⟩], 1⟩].length -
              [Layer.Empty].length),
          layers :=
            [Layer.Busy ⟨[⟨1, 0, 2047, 1⟩, ⟨0, 1, 2048, 2047⟩], 1⟩] }) ∧
      ([Layer.Busy ⟨[⟨1, 0, 2047, 1⟩, ⟨0, 1, 2048, 2047⟩], 1⟩].length =
          [(Layer.Empty : Layer)].length →
        (Atlas.mk (7 : Nat) [Layer.Empty]).entry_for 1 1
            (fun b ls n => b + ls.length + n) =
          (some (.Contiguous (.Partial 0 ⟨0, 0, 1, 1⟩)),
            { backend := (fun (b : Nat) (ls : List Layer) (n : Nat) =>
                b + ls.length + n) 7
                [Layer.Busy ⟨[⟨1, 0, 2047, 1⟩, ⟨0, 1, 2048, 2047⟩], 1⟩] 0,
              layers :=
                [Layer.Busy ⟨[⟨1, 0, 2047, 1⟩, ⟨0, 1, 2048, 2047⟩], 1⟩] })) ∧
      ([Layer.Busy ⟨[⟨1, 0, 2047, 1⟩, ⟨0, 1, 2048, 2047⟩], 1⟩].length =
          [(Layer.Empty : Layer)].length + 1 →
        (Atlas.mk (7 : Nat) [Layer.Empty]).entry_for 1 1
            (fun b ls n => b + ls.length + n) =
          (some (.Contiguous (.Partial 0 ⟨0, 0, 1, 1⟩)),
            { backend := (fun (b : Nat) (ls : List Layer) (n : Nat) =>
                b + ls.length + n) 7
                [Layer.Busy ⟨[⟨1, 0, 2047, 1⟩, ⟨0, 1, 2048, 2047⟩], 1⟩] 1,
              layers :=
                [Layer.Busy ⟨[⟨1, 0, 2047, 1⟩, ⟨0, 1, 2048, 2047⟩], 1⟩] }))) :=
  ⟨by decide,
    entry_for_grow_once Nat (Atlas.mk 7 [Layer.Empty]) 1 1 _ _ _ (by decide)⟩

/-- C10: a freshly constructed atlas has exactly one layer, which is
Empty; `layer_count` is 1, not 0. -/
theorem atlas_new_single_empty_layer (β : Type) (b : β) :
    (Atlas.new b).layers = [Layer.Empty] ∧
    (Atlas.new b).layer_count = 1 ∧
    (Atlas.new b).layer_count ≠ 0 :=
  ⟨rfl, rfl, by simp [Atlas.layer_count, Atlas.new]⟩

/-- C7: no atlas operation ever decreases the layer count — `allocate`
can only append, `deallocate` and `remove` keep the count exactly, and
`entry_for` can only grow it — so a layer index valid before any
operation is still a valid index afterwards. -/
theorem layer_indices_stable (L : List Layer) (w h : Nat)
    (al : Allocation) (e : Entry) (β : Type) (A : Atlas β)
    (grow : β → List Layer → Nat → β) :
    L.length ≤ ((allocate L w h).2).length ∧
    (deallocate L al).length = L.length ∧
    (remove L e).length = L.length ∧
    A.layers.length ≤ ((A.entry_for w h grow).2).layers.length := by
  refine ⟨allocate_mono L w h, deallocate_length L al, remove_length L e, ?_⟩
  rw [Atlas.entry_for_def]
  rcases halloc : allocate A.layers w h with ⟨oe, L'⟩
  have hm := allocate_mono A.layers w h
  rw [halloc] at hm
  cases oe with
  | none => simpa using hm
  | some e2 => simpa using hm

/-- C3: an exact full-layer request (`width = height = SIZE`) reuses the
lowest-index Empty layer, marking it Full and returning
`Contiguous (Full i)` without appending a layer; when no layer is Empty
it appends exactly one new Full layer and returns `Contiguous (Full
last)`. -/
theorem allocate_exact_fit (L : List Layer) (w h : Nat)
    (hw : w = SIZE) (hh : h = SIZE) :
    (∀ i : Nat, L[i]? = some Layer.Empty →
      (∀ j : Nat, j < i → L[j]? ≠ some Layer.Empty) →
      allocate L w h =
        (some (.Contiguous (.Full i)), L.set i Layer.Full) ∧
      (L.set i Layer.Full).length = L.length) ∧
    ((∀ j : Nat, L[j]? ≠ some Layer.Empty) →
      allocate L w h =
        (some (.Contiguous (.Full L.length)), L ++ [Layer.Full]) ∧
      (L ++ [Layer.Full]).length = L.length + 1) := by
  subst hw hh
  constructor
  · intro i hi hmin
    rw [allocate_eq_full L SIZE SIZE rfl rfl, allocateFull_def,
      setFirstEmpty_eq_some L i hi hmin]
    exact ⟨rfl, by simp⟩
  · intro hnone
    rw [allocate_eq_full L SIZE SIZE rfl rfl, allocateFull_def,
      setFirstEmpty_eq_none L hnone]
    exact ⟨rfl, by simp⟩

/-- Witness for C3: freeing a previously Full single layer and then
requesting `SIZE × SIZE` reuses layer index 0 instead of appending. -/
theorem allocate_exact_fit_witness :
    deallocate [Layer.Full] (.Full 0) = [Layer.Empty] ∧
    ([Layer.Empty] : List Layer)[0]? = some Layer.Empty ∧
    allocate [Layer.Empty] SIZE SIZE =
      (some (.Contiguous (.Full 0)), [Layer.Full]) ∧
    ([Layer.Full] : List Layer).length = [(Layer.Empty : Layer)].length := by
  have h := (allocate_exact_fit [Layer.Empty] SIZE SIZE rfl rfl).1 0
    (by decide) (fun j hj => absurd hj (by omega))
  exact ⟨by decide, by decide, h.1, by decide⟩

/-- C6: deallocating a `Full i` allocation sets layer `i` to Empty
unconditionally and leaves every other layer unchanged; deallocating a
`Partial i region` on a Busy layer frees the region in that layer's
allocator and demotes the layer to Empty exactly when the allocator
then reports empty, leaving other layers unchanged; on a non-Busy layer
the Partial deallocation is a silent no-op. -/
theorem deallocate_cases (L : List Layer) (i : Nat) (r : Region)
    (hi : i < L.length) :
    (deallocate L (.Full i) = L.set i Layer.Empty ∧
      (deallocate L (.Full i))[i]? = some Layer.Empty ∧
      ∀ j : Nat, j ≠ i → (deallocate L (.Full i))[j]? = L[j]?) ∧
    (∀ al : Allocator, L[i]? = some (Layer.Busy al) →
      deallocate L (.Partial i r) =
        L.set i (if (al.deallocate r).is_empty then Layer.Empty
          else Layer.Busy (al.deallocate r)) ∧
      ((deallocate L (.Partial i r))[i]? = some Layer.Empty ↔
        (al.deallocate r).is_empty = true) ∧
      ∀ j : Nat, j ≠ i → (deallocate L (.Partial i r))[j]? = L[j]?) ∧
    ((∀ al : Allocator, L[i]? ≠ some (Layer.Busy al)) →
      deallocate L (.Partial i r) = L) := by
  refine ⟨⟨deallocate_Full L i, ?_, ?_⟩, ?_, ?_⟩
  · rw [deallocate_Full, List.getElem?_set_self hi]
  · intro j hj
    rw [deallocate_Full, List.getElem?_set_ne (Ne.symm hj)]
  · intro al hB
    have hd0 : deallocate L (.Partial i r) =
        (if (al.deallocate r).is_empty then L.set i Layer.Empty
          else L.set i (Layer.Busy (al.deallocate r))) := by
      rw [deallocate_Partial, hB]
    have hd : deallocate L (.Partial i r) =
        L.set i (if (al.deallocate r).is_empty then Layer.Empty
          else Layer.Busy (al.deallocate r)) := by
      rw [hd0]
      by_cases he : (al.deallocate r).is_empty = true
      · rw [if_pos he, if_pos he]
      · rw [if_neg he, if_neg he]
    refine ⟨hd, ?_, ?_⟩
    · rw [hd]
      by_cases he : (al.deallocate r).is_empty = true
      · simp [he, List.getElem?_set_self hi]
      · simp [he, List.getElem?_set_self hi]
    · intro j hj
      rw [hd, List.getElem?_set_ne (Ne.symm hj)]
  · intro hnb
    rw [deallocate_Partial]
    rcases hg : L[i]? with _ | l
    · rfl
    · cases l with
      | Empty => rfl
      | Busy al => exact absurd hg (hnb al)
      | Full => rfl

/-- Witness for C6: on a single-Busy-layer list, deallocating `Full 0`
empties the layer regardless of its Busy state, and deallocating the
layer's only region demotes it to Empty. -/
theorem deallocate_cases_witness :
    (0 : Nat) < ([Layer.Busy ⟨[⟨0, 0, 1, 1⟩], 1⟩] : List Layer).length ∧
    deallocate [Layer.Busy ⟨[⟨0, 0, 1, 1⟩], 1⟩] (.Full 0) = [Layer.Empty] ∧
    deallocate [Layer.Busy ⟨[⟨0, 0, 1, 1⟩], 1⟩] (.Partial 0 ⟨0, 0, 1, 1⟩) =
      [Layer.Empty] := by
  have h := deallocate_cases [Layer.Busy ⟨[⟨0, 0, 1, 1⟩], 1⟩] 0 ⟨0, 0, 1, 1⟩
    (by decide)
  refine ⟨by decide, ?_, ?_⟩
  · exact h.1.1.trans (by decide)
  · exact ((h.2.1 ⟨[⟨0, 0, 1, 1⟩], 1⟩ (by decide)).1).trans (by decide)



/-! ### Busy layers never become Full -/

theorem deallocate_not_full (L : List Layer) (i : Nat)
    (hBE : (∃ al2, L[i]? = some (Layer.Busy al2)) ∨
      L[i]? = some Layer.Empty) (a : Allocation) :
    (∃ al2, (deallocate L a)[i]? = some (Layer.Busy al2)) ∨
      (deallocate L a)[i]? = some Layer.Empty := by
  have hi : i < L.length := by
    rcases hBE with ⟨al2, hB⟩ | hE
    · exact getElem?_some_lt hB
    · exact getElem?_some_lt hE
  cases a with
  | Full j =>
    rw [deallocate_Full]
    by_cases hij : i = j
    · subst hij
      exact Or.inr (List.getElem?_set_self hi)
    · rw [List.getElem?_set_ne (fun hji => hij hji.symm)]
      exact hBE
  | Partial j r =>
    rw [deallocate_Partial]
    rcases hg : L[j]? with _ | l
    · exact hBE
    · cases l with
      | Empty => exact hBE
      | Busy al =>
        dsimp only
        by_cases he : (al.deallocate r).is_empty
        · rw [if_pos he]
          by_cases hij : i = j
          · subst hij
            exact Or.inr (List.getElem?_set_self hi)
          · rw [List.getElem?_set_ne (fun hji => hij hji.symm)]
            exact hBE
        · rw [if_neg he]
          by_cases hij : i = j
          · subst hij
            exact Or.inl ⟨al.deallocate r, List.getElem?_set_self hi⟩
          · rw [List.getElem?_set_ne (fun hji => hij hji.symm)]
            exact hBE
      | Full => exact hBE

theorem foldl_deallocate_not_full (i : Nat) :
    ∀ (fr : List Fragment) (L : List Layer),
      ((∃ al2, L[i]? = some (Layer.Busy al2)) ∨
        L[i]? = some Layer.Empty) →
      (∃ al2,
        (fr.foldl (fun acc f => deallocate acc f.allocation) L)[i]? =
          some (Layer.Busy al2)) ∨
      (fr.foldl (fun acc f => deallocate acc f.allocation) L)[i]? =
        some Layer.Empty := by
  intro fr
  induction fr with
  | nil => intro L hBE; exact hBE
  | cons f fr ih =>
    intro L hBE
    rw [List.foldl_cons]
    exact ih _ (deallocate_not_full L i hBE f.allocation)

/-- C8: no operation of the atlas turns a Busy layer into a Full one:
after `allocate`, `deallocate`, `remove` or `entry_for`, a layer that
was Busy is still Busy or has become Empty — never Full, because a
full-size request only takes an Empty layer or appends a new one. -/
theorem busy_never_to_full (β : Type) (b : β) (L : List Layer) (i : Nat)
    (al : Allocator) (hB : L[i]? = some (Layer.Busy al)) :
    (∀ w h : Nat,
      (∃ al2, ((allocate L w h).2)[i]? = some (Layer.Busy al2)) ∨
        ((allocate L w h).2)[i]? = some Layer.Empty) ∧
    (∀ a : Allocation,
      (∃ al2, (deallocate L a)[i]? = some (Layer.Busy al2)) ∨
        (deallocate L a)[i]? = some Layer.Empty) ∧
    (∀ e : Entry,
      (∃ al2, (remove L e)[i]? = some (Layer.Busy al2)) ∨
        (remove L e)[i]? = some Layer.Empty) ∧
    (∀ (w h : Nat) (grow : β → List Layer → Nat → β),
      (∃ al2, (((Atlas.mk b L).entry_for w h grow).2).layers[i]? =
        some (Layer.Busy al2)) ∨
      (((Atlas.mk b L).entry_for w h grow).2).layers[i]? =
        some Layer.Empty) := by
  refine ⟨?_, ?_, ?_, ?_⟩
  · intro w h
    exact Or.inl (allocate_busy L w h i al hB)
  · intro a
    exact deallocate_not_full L i (Or.inl ⟨al, hB⟩) a
  · intro e
    cases e with
    | Contiguous a =>
      rw [remove_Contiguous]
      exact deallocate_not_full L i (Or.inl ⟨al, hB⟩) a
    | Fragmented sz fr =>
      rw [remove_Fragmented]
      exact foldl_deallocate_not_full i fr L (Or.inl ⟨al, hB⟩)
  · intro w h grow
    rw [Atlas.entry_for_def]
    rcases halloc : allocate L w h with ⟨oe, L'⟩
    have hbusy := allocate_busy L w h i al hB
    rw [halloc] at hbusy
    obtain ⟨al2, hal2⟩ := hbusy
    cases oe with
    | none => exact Or.inl ⟨al2, hal2⟩
    | some e2 => exact Or.inl ⟨al2, hal2⟩

/-- Witness for C8: a Busy layer stays Busy across a full-size
`SIZE × SIZE` allocation (which appends a new layer instead). -/
theorem busy_never_to_full_witness :
    ([Layer.Busy ⟨[⟨0, 0, 1, 1⟩], 1⟩] : List Layer)[0]? =
      some (Layer.Busy ⟨[⟨0, 0, 1, 1⟩], 1⟩) ∧
    ((∃ al2,
        ((allocate [Layer.Busy ⟨[⟨0, 0, 1, 1⟩], 1⟩] SIZE SIZE).2)[0]? =
          some (Layer.Busy al2)) ∨
      ((allocate [Layer.Busy ⟨[⟨0, 0, 1, 1⟩], 1⟩] SIZE SIZE).2)[0]? =
        some Layer.Empty) :=
  ⟨by decide,
    (busy_never_to_full Unit () [Layer.Busy ⟨[⟨0, 0, 1, 1⟩], 1⟩] 0
      ⟨[⟨0, 0, 1, 1⟩], 1⟩ (by decide)).1 SIZE SIZE⟩



/-! ### Round-trip of a small allocation (C5) -/

theorem set_same {α : Type} (l : List α) (i : Nat) (a : α)
    (hg : l[i]? = some a) : l.set i a = l := by
  apply List.ext_getElem?
  intro j
  by_cases hij : i = j
  · subst hij
    rw [List.getElem?_set_self (by
      by_contra hc
      rw [List.getElem?_eq_none (by omega)] at hg
      exact absurd hg (by simp))]
    exact hg.symm
  · rw [List.getElem?_set_ne hij]

/-- Counterexample to C5 as stated: two concrete atlas states and a
`1 × 1` request (`1 ≤ SIZE`) for which allocate succeeds but an
immediate deallocation does not return the layer sequence to its
pre-allocation state. First, starting from a single Full layer the
allocation appends a second layer, which remains (as Empty) after the
deallocation, so the classification sequence differs from the original.
Second, starting from a (not atlas-produced) Busy layer whose allocator
has no live allocation, the round trip demotes that layer to Empty. -/
theorem allocate_remove_roundtrip_cex :
    (1 ≤ SIZE) ∧
    allocate [Layer.Full] 1 1 =
      (some (.Contiguous (.Partial 1 ⟨0, 0, 1, 1⟩)),
        [Layer.Full, Layer.Busy ⟨[⟨1, 0, 2047, 1⟩, ⟨0, 1, 2048, 2047⟩], 1⟩]) ∧
    (remove [Layer.Full, Layer.Busy ⟨[⟨1, 0, 2047, 1⟩, ⟨0, 1, 2048, 2047⟩], 1⟩]
        (.Contiguous (.Partial 1 ⟨0, 0, 1, 1⟩))).map Layer.classify ≠
      [Layer.Full].map Layer.classify ∧
    allocate [Layer.Busy ⟨[⟨0, 0, 2048, 2048⟩], 0⟩] 1 1 =
      (some (.Contiguous (.Partial 0 ⟨0, 0, 1, 1⟩)),
        [Layer.Busy ⟨[⟨1, 0, 2047, 1⟩, ⟨0, 1, 2048, 2047⟩], 1⟩]) ∧
    (remove [Layer.Busy ⟨[⟨1, 0, 2047, 1⟩, ⟨0, 1, 2048, 2047⟩], 1⟩]
        (.Contiguous (.Partial 0 ⟨0, 0, 1, 1⟩))).map Layer.classify ≠
      [Layer.Busy ⟨[⟨0, 0, 2048, 2048⟩], 0⟩].map Layer.classify := by
  refine ⟨by decide, by decide, by decide, by decide, by decide⟩

/-- C5 as amended: for every atlas state in which each Busy layer's
allocator has at least one live allocation (true of every state the
atlas itself produces) and every `width, height ≤ SIZE` for which
allocate succeeds, immediately deallocating the returned entry restores
the Empty/Busy/Full classification of every pre-existing layer; a layer
appended by the allocation remains, but as Empty: the classification
sequence after the round trip is the original one followed by
`Empty` entries for the appended layers. -/
theorem allocate_remove_roundtrip (L : List Layer) (w h : Nat)
    (hws : w ≤ SIZE) (hhs : h ≤ SIZE)
    (hwf : ∀ (i : Nat) (al : Allocator),
      L[i]? = some (Layer.Busy al) → al.allocated ≠ 0)
    (e : Entry) (L' : List Layer)
    (halloc : allocate L w h = (some e, L')) :
    (remove L' e).map Layer.classify =
      L.map Layer.classify ++
        List.replicate (L'.length - L.length) LayerClass.Empty := by
  by_cases hfull : w = SIZE ∧ h = SIZE
  · rw [allocate_eq_full L w h hfull.1 hfull.2, allocateFull_def] at halloc
    rcases hse : setFirstEmpty L with _ | ⟨i, L2⟩
    · rw [hse] at halloc
      simp only [Prod.mk.injEq, Option.some.injEq] at halloc
      obtain ⟨he, hL⟩ := halloc
      subst he
      rw [← hL]
      rw [remove_Contiguous, deallocate_Full]
      rw [List.set_append, if_neg (by omega), Nat.sub_self]
      simp [List.map_append, Layer.classify, Nat.add_sub_cancel_left]
    · rw [hse] at halloc
      simp only [Prod.mk.injEq, Option.some.injEq] at halloc
      obtain ⟨he, hL⟩ := halloc
      subst he
      obtain ⟨hg, hset⟩ := setFirstEmpty_some_spec L i L2 hse
      have hi : i < L.length := getElem?_some_lt hg
      rw [← hL, hset]
      rw [remove_Contiguous, deallocate_Full, List.set_set]
      rw [List.length_set, Nat.sub_self]
      rw [List.map_set]
      rw [set_same (L.map Layer.classify) i (Layer.classify Layer.Empty)
        (by rw [List.getElem?_map, hg]; rfl)]
      simp
  · rw [allocate_eq_normal L w h hws hhs hfull, allocateNormal_def] at halloc
    rcases hscan : allocScan w h 0 L with _ | ⟨r, k, L2⟩
    · rw [hscan] at halloc
      rcases hal : (Allocator.new SIZE).allocate w h with _ | ⟨reg, al'⟩
      · rw [hal] at halloc
        simp at halloc
      · rw [hal] at halloc
        simp only [Prod.mk.injEq, Option.some.injEq] at halloc
        obtain ⟨he, hL⟩ := halloc
        subst he
        obtain ⟨_, _, hcount, _, _⟩ :=
          Allocator.allocate_some _ _ w h reg hal
        rw [← hL]
        rw [remove_Contiguous, deallocate_Partial,
          List.getElem?_concat_length]
        have hemp : ((al'.deallocate reg).is_empty) = true := by
          simp [Allocator.deallocate, Allocator.is_empty, hcount,
            Allocator.new]
        show List.map Layer.classify
          (if (al'.deallocate reg).is_empty = true then
            (L ++ [Layer.Busy al']).set L.length Layer.Empty
          else
            (L ++ [Layer.Busy al']).set L.length
              (Layer.Busy (al'.deallocate reg))) = _
        rw [if_pos hemp]
        rw [List.set_append, if_neg (by omega), Nat.sub_self]
        simp [List.map_append, Layer.classify, Nat.add_sub_cancel_left]
    · rw [hscan] at halloc
      simp only [Prod.mk.injEq, Option.some.injEq] at halloc
      obtain ⟨he, hL⟩ := halloc
      subst he
      obtain ⟨k', al', hk, hk', hset, _, _, hcase⟩ :=
        allocScan_some w h L 0 r k L2 hscan
      have hkk : k = k' := by omega
      have hlen : L2.length = L.length := by rw [hset, List.length_set]
      rw [← hL, hlen, Nat.sub_self, List.replicate_zero, List.append_nil]
      rw [remove_Contiguous, deallocate_Partial]
      rw [hkk, hset, List.getElem?_set_self (by omega)]
      rcases hcase with ⟨hg, _, hcount⟩ | ⟨al0, hg, _, hcount⟩
      · have hemp : ((al'.deallocate r).is_empty) = true := by
          simp [Allocator.deallocate, Allocator.is_empty, hcount]
        show List.map Layer.classify
          (if (al'.deallocate r).is_empty = true then
            (L.set k' (Layer.Busy al')).set k' Layer.Empty
          else
            (L.set k' (Layer.Busy al')).set k'
              (Layer.Busy (al'.deallocate r))) = _
        rw [if_pos hemp, List.set_set, List.map_set]
        rw [set_same (L.map Layer.classify) k' (Layer.classify Layer.Empty)
          (by rw [List.getElem?_map, hg]; rfl)]
      · have hne := hwf k' al0 hg
        have hemp : ((al'.deallocate r).is_empty) = false := by
          simp [Allocator.deallocate, Allocator.is_empty, hcount]
          omega
        show List.map Layer.classify
          (if (al'.deallocate r).is_empty = true then
            (L.set k' (Layer.Busy al')).set k' Layer.Empty
          else
            (L.set k' (Layer.Busy al')).set k'
              (Layer.Busy (al'.deallocate r))) = _
        rw [if_neg (by simp [hemp]), List.set_set, List.map_set]
        rw [set_same (L.map Layer.classify) k'
          (Layer.classify (Layer.Busy (al'.deallocate r)))
          (by rw [List.getElem?_map, hg]; rfl)]

/-- Witness for the amended C5: allocating `1 × 1` on a single-Full-layer
atlas appends a Busy layer; removing the returned entry restores the
Full layer's classification and leaves the appended layer Empty. -/
theorem allocate_remove_roundtrip_witness :
    ((1 : Nat) ≤ SIZE) ∧
    allocate [Layer.Full] 1 1 =
      (some (.Contiguous (.Partial 1 ⟨0, 0, 1, 1⟩)),
        [Layer.Full, Layer.Busy ⟨[⟨1, 0, 2047, 1⟩, ⟨0, 1, 2048, 2047⟩], 1⟩]) ∧
    (remove [Layer.Full, Layer.Busy ⟨[⟨1, 0, 2047, 1⟩, ⟨0, 1, 2048, 2047⟩], 1⟩]
        (.Contiguous (.Partial 1 ⟨0, 0, 1, 1⟩))).map Layer.classify =
      [Layer.Full].map Layer.classify ++
        List.replicate
          ([Layer.Full,
            Layer.Busy ⟨[⟨1, 0, 2047, 1⟩, ⟨0, 1, 2048, 2047⟩], 1⟩].length -
            [(Layer.Full : Layer)].length) LayerClass.Empty := by
  refine ⟨by decide, by decide, ?_⟩
  exact allocate_remove_roundtrip [Layer.Full] 1 1 (by decide) (by decide)
    (fun i al hg => by
      rcases i with _ | i <;> simp at hg)
    _ _ (by decide)


end Iced
